import Mathlib

/-!
Shallow embedding of the ticket-evaluation ingestion pipeline of this
repository (src/database.py `TicketDatabase.fetch_and_store_latest_data`
and its helpers, plus the quality-categorization block of
src/sync_grouped_evaluations.py `sync_grouped_runs`).

Python values that flow through the untyped payloads are modelled by `PyV`;
Python `dict`s are association lists (first binding wins, as a Python dict
has unique keys).  Python exceptions are modelled by `Except PyErr`.
Timestamps (datetimes / their ISO strings) are abstracted as `Nat` with the
chronological order; `Option Nat` models a possibly-missing `start_time`.
The SQLite table `ticket_evaluations` (UNIQUE(date, ticket_id),
INSERT OR REPLACE) is modelled as a list of rows upserted by key.
-/

namespace TicketPipeline

/-- Model of an untyped Python value appearing in run payloads. -/
inductive PyV where
  | none : PyV
  | int : Int → PyV
  | str : String → PyV
  | dict : List (String × PyV) → PyV

mutual

def decEqV : (a b : PyV) → Decidable (a = b)
  | PyV.none, PyV.none => isTrue rfl
  | PyV.int m, PyV.int n =>
    if h : m = n then isTrue (by rw [h]) else isFalse (by intro hh; injection hh; contradiction)
  | PyV.str s, PyV.str t =>
    if h : s = t then isTrue (by rw [h]) else isFalse (by intro hh; injection hh; contradiction)
  | PyV.dict d, PyV.dict e =>
    match decEqD d e with
    | isTrue h => isTrue (by rw [h])
    | isFalse h => isFalse (by intro hh; injection hh; contradiction)
  | PyV.none, PyV.int _ => isFalse nofun
  | PyV.none, PyV.str _ => isFalse nofun
  | PyV.none, PyV.dict _ => isFalse nofun
  | PyV.int _, PyV.none => isFalse nofun
  | PyV.int _, PyV.str _ => isFalse nofun
  | PyV.int _, PyV.dict _ => isFalse nofun
  | PyV.str _, PyV.none => isFalse nofun
  | PyV.str _, PyV.int _ => isFalse nofun
  | PyV.str _, PyV.dict _ => isFalse nofun
  | PyV.dict _, PyV.none => isFalse nofun
  | PyV.dict _, PyV.int _ => isFalse nofun
  | PyV.dict _, PyV.str _ => isFalse nofun

def decEqD : (d e : List (String × PyV)) → Decidable (d = e)
  | [], [] => isTrue rfl
  | [], _ :: _ => isFalse nofun
  | _ :: _, [] => isFalse nofun
  | (k1, v1) :: r1, (k2, v2) :: r2 =>
    if hk : k1 = k2 then
      match decEqV v1 v2 with
      | isTrue hv =>
        match decEqD r1 r2 with
        | isTrue hr => isTrue (by rw [hk, hv, hr])
        | isFalse hr => isFalse (by intro h; injection h with h1 h2; exact hr h2)
      | isFalse hv => isFalse (by intro h; injection h with h1 h2; injection h1 with ha hb; exact hv hb)
    else isFalse (by intro h; injection h with h1 h2; injection h1 with ha hb; exact hk ha)

end

instance : DecidableEq PyV := decEqV

instance {ε α : Type} [DecidableEq ε] [DecidableEq α] : DecidableEq (Except ε α)
  | Except.ok a, Except.ok b =>
    if h : a = b then isTrue (by rw [h]) else isFalse (by intro hh; injection hh; contradiction)
  | Except.error a, Except.error b =>
    if h : a = b then isTrue (by rw [h]) else isFalse (by intro hh; injection hh; contradiction)
  | Except.ok _, Except.error _ => isFalse nofun
  | Except.error _, Except.ok _ => isFalse nofun

/-- Python exception kinds that the modelled code can raise. -/
inductive PyErr where
  | typeError : PyErr
  | attributeError : PyErr
  | valueError : PyErr
deriving DecidableEq, Repr

/-- First binding for a key in an association list (Python dict lookup). -/
def lookupK (d : List (String × PyV)) (k : String) : Option PyV :=
  match d with
  | [] => Option.none
  | (k', v) :: rest => if k' = k then Option.some v else lookupK rest k

/-- Python `k in d` for a dict. -/
def containsKey (d : List (String × PyV)) (k : String) : Bool :=
  (lookupK d k).isSome

/-- Python `d.get(k)`: value if present, else `None`. -/
def dictGet (d : List (String × PyV)) (k : String) : PyV :=
  (lookupK d k).getD PyV.none

/-- Python `d.get(k, dflt)`. -/
def dictGetD (d : List (String × PyV)) (k : String) (dflt : PyV) : PyV :=
  (lookupK d k).getD dflt

/-- Python truthiness of a modelled value. -/
def truthy : PyV → Bool
  | PyV.none => false
  | PyV.int n => n ≠ 0
  | PyV.str s => s ≠ ""
  | PyV.dict d => !d.isEmpty

/-- `.get(k)` on an arbitrary value: `AttributeError` unless it is a dict
(mirrors Python, where e.g. a list or str parsed from JSON has no `.get`). -/
def pyGet (v : PyV) (k : String) : Except PyErr PyV :=
  match v with
  | PyV.dict d => Except.ok (dictGet d k)
  | _ => Except.error PyErr.attributeError

/-- `.get(k, dflt)` on an arbitrary value. -/
def pyGetD (v : PyV) (k : String) (dflt : PyV) : Except PyErr PyV :=
  match v with
  | PyV.dict d => Except.ok (dictGetD d k dflt)
  | _ => Except.error PyErr.attributeError

/-- `l1` is a leading segment of `l2` (used for substring scanning). -/
def startsWithL : List Char → List Char → Bool
  | [], _ => true
  | _ :: _, [] => false
  | c :: cs, d :: ds => c = d && startsWithL cs ds

/-- Substring occurrence test on char lists. -/
def containsSubL (pat : List Char) : List Char → Bool
  | [] => startsWithL pat []
  | c :: cs => startsWithL pat (c :: cs) || containsSubL pat cs

/-- Python `needle in hay` for strings. -/
def containsStr (hay needle : String) : Bool :=
  containsSubL needle.data hay.data

/-- Python `s.startswith(p)`. -/
def startsWithStr (s p : String) : Bool :=
  startsWithL p.data s.data

/-- Python `s.lower()` (ASCII suffices for the comment texts involved). -/
def lowerStr (s : String) : String :=
  String.mk (s.data.map Char.toLower)

/-- Python `needle in hay` on an arbitrary value: substring test on `str`,
key membership on `dict`, `TypeError` otherwise (e.g. `None`, `int`). -/
def pyIn (needle : String) (hay : PyV) : Except PyErr Bool :=
  match hay with
  | PyV.str s => Except.ok (containsStr s needle)
  | PyV.dict d => Except.ok (containsKey d needle)
  | _ => Except.error PyErr.typeError

/-- Python `v.lower()`: `AttributeError` unless `v` is a string. -/
def pyLower (v : PyV) : Except PyErr String :=
  match v with
  | PyV.str s => Except.ok (lowerStr s)
  | _ => Except.error PyErr.attributeError

/-- ASCII digit test (used by the `\d{4}-\d{2}-\d{2}` date patterns). -/
def isDig (c : Char) : Bool :=
  '0' ≤ c && c ≤ '9'

/-- Match `\d{4}-\d{2}-\d{2}` at the head of a char list, returning the ten
matched characters as a string. -/
def dateAt : List Char → Option String
  | a :: b :: c :: d :: h1 :: e :: f :: h2 :: g :: i :: _ =>
    if isDig a && isDig b && isDig c && isDig d && h1 = '-' &&
       isDig e && isDig f && h2 = '-' && isDig g && isDig i then
      Option.some (String.mk [a, b, c, d, h1, e, f, h2, g, i])
    else
      Option.none
  | _ => Option.none

/-- `re.search(pfx + r"(\d{4}-\d{2}-\d{2})", s)`: scan left to right for the
first position where the literal `pfx` is followed by a date, returning the
captured date. -/
def searchDate (pfx : List Char) : List Char → Option String
  | [] => Option.none
  | c :: cs =>
    if startsWithL pfx (c :: cs) then
      match dateAt (List.drop pfx.length (c :: cs)) with
      | Option.some ds => Option.some ds
      | Option.none => searchDate pfx cs
    else
      searchDate pfx cs

/-- `extract_date_from_experiment` (src/database.py lines 137-163; identical
code in src/simple_sync.py lines 66-84). -/
def extract_date_from_experiment (experiment : String) : Option String :=
  if startsWithStr experiment "zendesk-evaluation-2025-" then
    searchDate "zendesk-evaluation-".data experiment.data
  else if containsStr experiment "implementation-evaluation-" then
    searchDate "implementation-evaluation-".data experiment.data
  else if containsStr experiment "homeowner-pay-evaluation-" then
    searchDate "homeowner-pay-evaluation-".data experiment.data
  else if containsStr experiment "management-pay-evaluation-" then
    searchDate "management-pay-evaluation-".data experiment.data
  else
    Option.none

/-- Days in a month (Gregorian), as validated by `datetime.strptime`. -/
def daysInMonth (y m : Nat) : Nat :=
  if m = 2 then
    if y % 4 = 0 && (y % 100 ≠ 0 || y % 400 = 0) then 29 else 28
  else if m = 4 || m = 6 || m = 9 || m = 11 then 30
  else 31

/-- Value of a four-or-two digit char block. -/
def digitsVal (cs : List Char) : Nat :=
  cs.foldl (fun a c => a * 10 + (c.toNat - 48)) 0

/-- `datetime.strptime(date_str, "%Y-%m-%d")`: parse and validate, yielding
a `(year, month, day)` triple, or `None` standing for a raised `ValueError`. -/
def strptimeDate (s : String) : Option (Nat × Nat × Nat) :=
  match s.data with
  | [a, b, c, d, h1, e, f, h2, g, i] =>
    if isDig a && isDig b && isDig c && isDig d && h1 = '-' &&
       isDig e && isDig f && h2 = '-' && isDig g && isDig i then
      let y := digitsVal [a, b, c, d]
      let m := digitsVal [e, f]
      let dy := digitsVal [g, i]
      if 1 ≤ m && m ≤ 12 && 1 ≤ dy && dy ≤ daysInMonth y m then
        Option.some (y, m, dy)
      else
        Option.none
    else
      Option.none
  | _ => Option.none

/-- Chronological order on date triples (datetime comparison). -/
def dateLt (a b : Nat × Nat × Nat) : Bool :=
  a.1 < b.1 || (a.1 = b.1 && (a.2.1 < b.2.1 || (a.2.1 = b.2.1 && a.2.2 < b.2.2)))

/-- `determine_ticket_type_grouped` (src/database.py lines 202-212). -/
def determine_ticket_type_grouped (experiment : String) : String :=
  if containsStr experiment "implementation-evaluation-" then "implementation"
  else if containsStr experiment "homeowner-pay-evaluation-" then "homeowner"
  else if containsStr experiment "management-pay-evaluation-" then "management"
  else "homeowner"

/-- `determine_ticket_type_ungrouped` (src/database.py lines 194-200).
`evaluation_key` and `comment` are raw payload values: `in` raises
`TypeError` on a non-container key, `.lower()` raises `AttributeError` on a
non-string comment (in particular on `None`). -/
def determine_ticket_type_ungrouped (evaluation_key comment : PyV) :
    Except PyErr String := do
  let b1 ← pyIn "management_ticket_evaluation" evaluation_key
  if b1 then
    Except.ok "management"
  else do
    let cl ← pyLower comment
    Except.ok (if containsStr cl "management" then "management" else "homeowner")

/-- `determine_ticket_type` (src/database.py lines 182-192): the regime is
selected by comparing the label-derived `date_str` against the fixed cutoff
`datetime(2025, 8, 15)`; the run's start time plays no part. -/
def determine_ticket_type (date_str experiment : String)
    (evaluation_key comment : PyV) : Except PyErr String :=
  match strptimeDate date_str with
  | Option.none => Except.error PyErr.valueError
  | Option.some d =>
    if dateLt d (2025, 8, 15) then
      determine_ticket_type_ungrouped evaluation_key comment
    else
      Except.ok (determine_ticket_type_grouped experiment)

/-- `extract_ticket_id` (src/database.py lines 165-180; identical code in
src/simple_sync.py lines 86-98).  `inputs` is the raw `run.inputs` value,
`result` the parsed output mapping.  Python `None` results are `PyV.none`. -/
def extract_ticket_id (inputs result : PyV) : Except PyErr PyV :=
  if truthy inputs then
    match inputs with
    | PyV.dict d =>
      if containsKey d "ticket_id" then
        Except.ok (dictGet d "ticket_id")
      else
        match lookupK d "x" with
        | Option.some (PyV.dict dx) => Except.ok (dictGet dx "ticket_id")
        | _ =>
          match lookupK d "run" with
          | Option.some (PyV.dict dr) =>
            match dictGetD dr "inputs" (PyV.dict []) with
            | PyV.dict di =>
              match lookupK di "x" with
              | Option.some (PyV.dict dx2) => Except.ok (dictGet dx2 "ticket_id")
              | _ => pyGet result "ticket_id"
            | PyV.str s =>
              if containsStr s "x" then Except.error PyErr.typeError
              else pyGet result "ticket_id"
            | _ => Except.error PyErr.typeError
          | _ => pyGet result "ticket_id"
    | _ => pyGet result "ticket_id"
  else
    pyGet result "ticket_id"

/-- `run.outputs` as seen by the pipeline: a mapping, a JSON string
(carrying the outcome of `json.loads` on it: `Option.none` when parsing
raises, otherwise the parsed value, which need not be a mapping), absent /
`None`, or a value of some other type. -/
inductive Output where
  | odict : List (String × PyV) → Output
  | ostr : Option PyV → Output
  | onone : Output
  | oother : Output
deriving DecidableEq

/-- A raw run record as consumed by `fetch_and_store_latest_data`:
`experiment` is `metadata.get("experiment")` (`Option.none` when metadata is
absent, not a dict, or lacks the key), and `start_time` is the run's
timestamp (`datetime`s abstracted as `Nat` in chronological order). -/
structure Run where
  name : Option String
  experiment : Option String
  inputs : PyV
  outputs : Output
  start_time : Option Nat
deriving DecidableEq

/-- One value of the `latest_runs` dict, which is also exactly the row
written by `store_evaluations`: the tuple
`(start_time_dt, date_str, ticket_id, quality, comment, experiment,
start_time, ticket_type, evaluation_key)` with the two start-time fields
collapsed (in the model they are the same timestamp). -/
structure Entry where
  time : Option Nat
  date : String
  tid : PyV
  quality : PyV
  comment : PyV
  ekey : PyV
  experiment : String
  ttype : String
deriving DecidableEq

/-- Dedup/upsert key `(date, ticket_id)`. -/
def Entry.key (e : Entry) : String × PyV :=
  (e.date, e.tid)

/-- Truthiness of `run.outputs` combined with the subsequent
dict/str/other dispatch (src/database.py lines 88-98).  A falsy output
(absent, `None`, empty dict) skips the record at the `if`; a non-dict,
non-str output hits the `else: continue`; an unparseable JSON string hits
the `except: continue`.  All three silently drop the record. -/
def parseResult : Output → Option PyV
  | Output.odict d => if d.isEmpty then Option.none else Option.some (PyV.dict d)
  | Output.ostr pr => pr
  | Output.onone => Option.none
  | Output.oother => Option.none

/-- The per-record body of the fetch loop up to the `latest_runs` update
(src/database.py lines 73-117): returns `Option.none` for every `continue`
(missing/falsy experiment, no date, wrong run name, unusable output, no
ticket id) and propagates exceptions raised inside the loop body. -/
def parseRun (run : Run) : Except PyErr (Option Entry) :=
  match run.experiment with
  | Option.none => Except.ok Option.none
  | Option.some exp =>
    if exp = "" then Except.ok Option.none
    else
      match extract_date_from_experiment exp with
      | Option.none => Except.ok Option.none
      | Option.some date_str =>
        if run.name = Option.some "detailed_similarity_evaluator" then
          match parseResult run.outputs with
          | Option.none => Except.ok Option.none
          | Option.some result => do
            let quality ← pyGet result "quality"
            let comment ← pyGet result "comment"
            let evaluation_key ← pyGetD result "key" (PyV.str "")
            let ticket_id ← extract_ticket_id run.inputs result
            if ticket_id = PyV.none then
              Except.ok Option.none
            else do
              let ticket_type ← determine_ticket_type date_str exp evaluation_key comment
              Except.ok (Option.some
                { time := run.start_time, date := date_str, tid := ticket_id,
                  quality := quality, comment := comment, ekey := evaluation_key,
                  experiment := exp, ttype := ticket_type })
        else
          Except.ok Option.none

/-- The incremental-fetch guard (src/database.py line 120):
`start_time_dt and latest_timestamp and start_time_dt <= latest_timestamp`
(datetimes are always truthy, so this is definedness of both plus `≤`). -/
def guardSkip (latest t : Option Nat) : Bool :=
  match t, latest with
  | Option.some a, Option.some m => a ≤ m
  | _, _ => false

/-- Python `start_time_dt > latest_runs[key][0]`: comparing a `datetime`
with `None` (on either side, or `None` with `None`) raises `TypeError`. -/
def pyGtTime (a b : Option Nat) : Except PyErr Bool :=
  match a, b with
  | Option.some x, Option.some y => Except.ok (decide (y < x))
  | _, _ => Except.error PyErr.typeError

/-- Find the `latest_runs` entry with the given key. -/
def findEntry (acc : List Entry) (k : String × PyV) : Option Entry :=
  match acc with
  | [] => Option.none
  | e :: rest => if e.key = k then Option.some e else findEntry rest k

/-- Replace the (first) entry with `e.key` by `e`, in place. -/
def replaceEntry (acc : List Entry) (e : Entry) : List Entry :=
  match acc with
  | [] => []
  | e' :: rest =>
    if e'.key = e.key then e :: rest else e' :: replaceEntry rest e

/-- The `latest_runs` dict update (src/database.py lines 123-125): insert a
new key, or replace when strictly newer (the comparison can raise). -/
def dedupInsert (acc : List Entry) (e : Entry) : Except PyErr (List Entry) :=
  match findEntry acc e.key with
  | Option.none => Except.ok (acc ++ [e])
  | Option.some old => do
    let b ← pyGtTime e.time old.time
    Except.ok (if b then replaceEntry acc e else acc)

/-- One iteration of the fetch loop: parse, guard, dedup. -/
def processRun (latest : Option Nat) (acc : List Entry) (run : Run) :
    Except PyErr (List Entry) :=
  match parseRun run with
  | Except.error err => Except.error err
  | Except.ok Option.none => Except.ok acc
  | Except.ok (Option.some e) =>
    if guardSkip latest e.time then Except.ok acc else dedupInsert acc e

/-- The whole fetch loop over a batch (src/database.py lines 73-125). -/
def processList (latest : Option Nat) (acc : List Entry) :
    List Run → Except PyErr (List Entry)
  | [] => Except.ok acc
  | r :: rs =>
    match processRun latest acc r with
    | Except.error err => Except.error err
    | Except.ok acc' => processList latest acc' rs

/-- The `ticket_evaluations` table: a list of rows (an `Entry` holds
exactly the columns written by `store_evaluations`). -/
abbrev Store := List Entry

/-- `INSERT OR REPLACE` under `UNIQUE(date, ticket_id)`: replace the row
with the same key, else insert. -/
def upsertRow (db : Store) (e : Entry) : Store :=
  match findEntry db e.key with
  | Option.none => db ++ [e]
  | Option.some _ => replaceEntry db e

/-- `store_evaluations` (src/database.py lines 226-239): upsert every
deduplicated entry, committed once at the end. -/
def store_evaluations (db : Store) (acc : List Entry) : Store :=
  acc.foldl upsertRow db

/-- SQL `MAX` accumulation step: NULLs are ignored. -/
def sqlMax (m t : Option Nat) : Option Nat :=
  match m, t with
  | Option.none, x => x
  | Option.some a, Option.none => Option.some a
  | Option.some a, Option.some b => Option.some (max a b)

/-- `get_latest_timestamp` (src/database.py lines 214-224):
`SELECT MAX(start_time)`, ignoring NULLs, `None` on an empty column. -/
def get_latest_timestamp (db : Store) : Option Nat :=
  db.foldl (fun m r => sqlMax m r.time) Option.none

/-- `fetch_and_store_latest_data` on an already-fetched batch
(src/database.py lines 53-135): the whole body sits in `try/except`, any
exception yields `(0, unchanged table)`; otherwise the deduplicated
entries are stored and their count returned. -/
def fetch_and_store_latest_data (db : Store) (runs : List Run) : Nat × Store :=
  match processList (get_latest_timestamp db) [] runs with
  | Except.error _ => (0, db)
  | Except.ok acc =>
    if acc.isEmpty then (0, db) else (acc.length, store_evaluations db acc)

/-- The quality-categorization chain of `sync_grouped_runs`
(src/sync_grouped_evaluations.py lines 183-198); the same chain, with the
same ordering, appears in src/get_evaluation_grouped.py lines 200-212.
Quality tags are tested first; comment-based skip rules only afterwards. -/
def sync_quality_category (quality comment : PyV) : Except PyErr String :=
  if quality = PyV.str "copy_paste" then Except.ok "copy_paste"
  else if quality = PyV.str "low_quality" then Except.ok "low_quality"
  else if quality = PyV.str "high_quality" then Except.ok "high_quality"
  else if comment = PyV.str "empty_bot_answer" then Except.ok "skipped"
  else do
    let b1 ←
      if truthy comment then pyIn "management_company_ticket" comment
      else Except.ok false
    if b1 then Except.ok "skipped"
    else do
      let b2 ←
        if truthy comment then pyIn "empty_human_answer" comment
        else Except.ok false
      if b2 then Except.ok "skipped" else Except.ok "unknown"

/-- A concrete grouped-regime run shape used for instantiating the
theorems: a `detailed_similarity_evaluator` run of the experiment
`implementation-evaluation-2025-08-20-xyz` with `inputs.ticket_id`. -/
def mkRun (tid : Int) (t : Option Nat) (q : String) : Run :=
  { name := Option.some "detailed_similarity_evaluator",
    experiment := Option.some "implementation-evaluation-2025-08-20-xyz",
    inputs := PyV.dict [("ticket_id", PyV.int tid)],
    outputs := Output.odict [("quality", PyV.str q)],
    start_time := t }

/-- The entry that `parseRun` produces for `mkRun tid t q`. -/
def mkEntry (tid : Int) (t : Option Nat) (q : String) : Entry :=
  { time := t, date := "2025-08-20", tid := PyV.int tid,
    quality := PyV.str q, comment := PyV.none, ekey := PyV.str "",
    experiment := "implementation-evaluation-2025-08-20-xyz",
    ttype := "implementation" }

/-- The `(date, ticket_id)` keys of a list of entries are pairwise
distinct (the `latest_runs` dict invariant; for the table this is the
`UNIQUE(date, ticket_id)` constraint). -/
def uniqKeys : List Entry → Prop
  | [] => True
  | e :: rest => (∀ x ∈ rest, x.key ≠ e.key) ∧ uniqKeys rest

/-- Every entry carries a timestamp strictly above the fetch-guard
threshold (satisfied by `latest_runs` when every raw run has a
`start_time`). -/
def goodAcc (latest : Option Nat) (acc : List Entry) : Prop :=
  ∀ x ∈ acc, ∃ t, x.time = Option.some t ∧ ∀ m, latest = Option.some m → m < t

/-! ## Helper lemmas about the parsing stage -/

/-- Anatomy of a successfully parsed record: every field of the produced
entry is the value computed by the corresponding helper on the raw run. -/
theorem parseRun_spec (r : Run) (e : Entry)
    (h : parseRun r = Except.ok (Option.some e)) :
    e.time = r.start_time ∧
    r.experiment = Option.some e.experiment ∧
    extract_date_from_experiment e.experiment = Option.some e.date ∧
    ∃ result, parseResult r.outputs = Option.some result ∧
      pyGet result "quality" = Except.ok e.quality ∧
      pyGet result "comment" = Except.ok e.comment ∧
      pyGetD result "key" (PyV.str "") = Except.ok e.ekey ∧
      extract_ticket_id r.inputs result = Except.ok e.tid ∧
      e.tid ≠ PyV.none ∧
      determine_ticket_type e.date e.experiment e.ekey e.comment = Except.ok e.ttype := by
  unfold parseRun at h
  cases hexp : r.experiment with
  | none => rw [hexp] at h; dsimp only at h; simp at h
  | some exp =>
    rw [hexp] at h; dsimp only at h
    by_cases hne : exp = ""
    · rw [if_pos hne] at h; simp at h
    · rw [if_neg hne] at h
      cases hdate : extract_date_from_experiment exp with
      | none => rw [hdate] at h; dsimp only at h; simp at h
      | some date_str =>
        rw [hdate] at h; dsimp only at h
        by_cases hname : r.name = Option.some "detailed_similarity_evaluator"
        · rw [if_pos hname] at h
          cases hres : parseResult r.outputs with
          | none => rw [hres] at h; dsimp only at h; simp at h
          | some result =>
            rw [hres] at h; dsimp only at h
            cases hq : pyGet result "quality" with
            | error err => simp [hq, Bind.bind, Except.bind] at h
            | ok qv =>
              cases hc : pyGet result "comment" with
              | error err => simp [hq, hc, Bind.bind, Except.bind] at h
              | ok cv =>
                cases hk : pyGetD result "key" (PyV.str "") with
                | error err => simp [hq, hc, hk, Bind.bind, Except.bind] at h
                | ok kv =>
                  cases hti : extract_ticket_id r.inputs result with
                  | error err => simp [hq, hc, hk, hti, Bind.bind, Except.bind] at h
                  | ok tv =>
                    by_cases htn : tv = PyV.none
                    · simp [hq, hc, hk, hti, htn, Bind.bind, Except.bind] at h
                    · cases htt : determine_ticket_type date_str exp kv cv with
                      | error err =>
                        simp [hq, hc, hk, hti, htn, htt, Bind.bind, Except.bind] at h
                      | ok tt =>
                        simp only [hq, hc, hk, hti, Bind.bind, Except.bind] at h
                        rw [if_neg htn] at h
                        simp only [htt, Bind.bind, Except.bind, Except.ok.injEq,
                          Option.some.injEq] at h
                        subst h
                        exact ⟨rfl, rfl, by simpa using hdate, result, rfl, hq, hc, hk,
                          hti, htn, by simpa using htt⟩
        · rw [if_neg hname] at h; simp at h

/-- Shifting a run's `start_time` only shifts the `time` field of the
parsed entry; in particular date, ticket type and all other classification
outputs are independent of the run's start time. -/
theorem parseRun_start_shift (r : Run) (t : Option Nat) :
    parseRun { r with start_time := t } =
      match parseRun r with
      | Except.error err => Except.error err
      | Except.ok Option.none => Except.ok Option.none
      | Except.ok (Option.some e) => Except.ok (Option.some { e with time := t }) := by
  unfold parseRun
  dsimp only
  cases hexp : r.experiment with
  | none => dsimp only
  | some exp =>
    dsimp only
    by_cases hne : exp = ""
    · rw [if_pos hne, if_pos hne]
    · rw [if_neg hne, if_neg hne]
      cases hdate : extract_date_from_experiment exp with
      | none => dsimp only
      | some date_str =>
        dsimp only
        by_cases hname : r.name = Option.some "detailed_similarity_evaluator"
        · rw [if_pos hname, if_pos hname]
          cases hres : parseResult r.outputs with
          | none => dsimp only
          | some result =>
            dsimp only
            cases hq : pyGet result "quality" with
            | error err => simp [hq, Bind.bind, Except.bind]
            | ok qv =>
              cases hc : pyGet result "comment" with
              | error err => simp [hq, hc, Bind.bind, Except.bind]
              | ok cv =>
                cases hk : pyGetD result "key" (PyV.str "") with
                | error err => simp [hq, hc, hk, Bind.bind, Except.bind]
                | ok kv =>
                  cases hti : extract_ticket_id r.inputs result with
                  | error err => simp [hq, hc, hk, hti, Bind.bind, Except.bind]
                  | ok tv =>
                    by_cases htn : tv = PyV.none
                    · simp [hq, hc, hk, hti, htn, Bind.bind, Except.bind]
                    · cases htt : determine_ticket_type date_str exp kv cv with
                      | error err =>
                        simp [hq, hc, hk, hti, htn, htt, Bind.bind, Except.bind]
                      | ok tt =>
                        simp [hq, hc, hk, hti, htn, htt, Bind.bind, Except.bind]
        · rw [if_neg hname, if_neg hname]

/-- Nonempty dicts are truthy. -/
theorem truthy_dict_of_ne (d : List (String × PyV)) (h : d ≠ []) :
    truthy (PyV.dict d) = true := by
  cases d with
  | nil => contradiction
  | cons a l => rfl

/-! ## Claim theorems -/

/-- C1: counterexample — in the grouped-sync quality categorization, a
record with quality "copy_paste" AND comment "empty_bot_answer" is
categorized "copy_paste", not "skipped": the quality tags are tested
before the comment-based skip rules, contradicting the claimed precedence. -/
theorem C1_counterexample :
    sync_quality_category (PyV.str "copy_paste") (PyV.str "empty_bot_answer") =
      Except.ok "copy_paste" ∧
    sync_quality_category (PyV.str "copy_paste") (PyV.str "empty_bot_answer") ≠
      Except.ok "skipped" := by
  exact ⟨by decide, by decide⟩

/-- C1: amended — the quality tag outranks the comment: quality
"copy_paste" yields category "copy_paste" whatever the comment says, and
comment "empty_bot_answer" yields "skipped" precisely when the quality is
none of the three recognized tags. -/
theorem C1_amended_theorem (q c : PyV)
    (h1 : q ≠ PyV.str "copy_paste") (h2 : q ≠ PyV.str "low_quality")
    (h3 : q ≠ PyV.str "high_quality") :
    sync_quality_category (PyV.str "copy_paste") c = Except.ok "copy_paste" ∧
    sync_quality_category q (PyV.str "empty_bot_answer") = Except.ok "skipped" := by
  constructor
  · unfold sync_quality_category
    rw [if_pos rfl]
  · unfold sync_quality_category
    rw [if_neg h1, if_neg h2, if_neg h3, if_pos rfl]

/-- C1: witness for the amended theorem at concrete inputs. -/
theorem C1_witness :
    sync_quality_category (PyV.str "copy_paste") (PyV.str "ok answer") =
      Except.ok "copy_paste" ∧
    sync_quality_category PyV.none (PyV.str "empty_bot_answer") =
      Except.ok "skipped" := by
  have h := C1_amended_theorem PyV.none (PyV.str "ok answer")
    (by decide) (by decide) (by decide)
  exact ⟨h.1, h.2⟩

/-- C8: counterexample — a record with null quality whose comment triggers
no skip rule is categorized "unknown" by the grouped-sync categorization,
not left as a null quality. -/
theorem C8_counterexample :
    sync_quality_category PyV.none PyV.none = Except.ok "unknown" ∧
    sync_quality_category PyV.none (PyV.str "just a remark") =
      Except.ok "unknown" := by
  exact ⟨by decide, by decide⟩

/-- C8: amended — the grouped-sync categorization maps a null/absent
quality with no matching skip comment to the category "unknown"; the main
fetch-and-store path performs no categorization at all and stores the raw
quality unchanged, so there a missing quality is persisted as null. -/
theorem C8_amended_theorem :
    (∀ s : String, s ≠ "empty_bot_answer" →
      containsStr s "management_company_ticket" = false →
      containsStr s "empty_human_answer" = false →
      sync_quality_category PyV.none (PyV.str s) = Except.ok "unknown") ∧
    sync_quality_category PyV.none PyV.none = Except.ok "unknown" ∧
    (∀ (r : Run) (d : List (String × PyV)) (e : Entry),
      r.outputs = Output.odict d → lookupK d "quality" = Option.none →
      parseRun r = Except.ok (Option.some e) → e.quality = PyV.none) := by
  refine ⟨?_, by decide, ?_⟩
  · intro s hs1 hs2 hs3
    unfold sync_quality_category
    rw [if_neg (by decide), if_neg (by decide), if_neg (by decide),
      if_neg (fun h => hs1 (by injection h))]
    by_cases hse : s = ""
    · subst hse; decide
    · have ht : truthy (PyV.str s) = true := by simp [truthy, hse]
      simp [ht, pyIn, Bind.bind, Except.bind, hs2, hs3]
  · intro r d e hout hlq hp
    obtain ⟨-, -, -, result, hres, hq, -⟩ := parseRun_spec r e hp
    rw [hout] at hres
    unfold parseResult at hres
    dsimp only at hres
    by_cases hd : d.isEmpty
    · rw [if_pos hd] at hres; exact absurd hres (by simp)
    · rw [if_neg hd] at hres
      injection hres with hres
      subst hres
      unfold pyGet at hq
      injection hq with hq
      rw [← hq]
      unfold dictGet
      rw [hlq]
      rfl

/-- C8: witness for the amended theorem at concrete inputs. -/
theorem C8_witness :
    sync_quality_category PyV.none (PyV.str "fine response") =
      Except.ok "unknown" := by
  exact C8_amended_theorem.1 "fine response" (by decide) (by decide) (by decide)

/-- C6: an experiment labeled zendesk-evaluation-2025-08-14... derives
date 2025-08-14 and is classified by the pre-cutoff (ungrouped,
evaluation-key/comment) rules, while implementation-evaluation-2025-08-15...
derives 2025-08-15 and gets the fixed post-cutoff type "implementation";
the regime depends only on the label-derived date: changing a run's
start_time changes nothing of the parsed entry but its recorded time. -/
theorem C6_theorem :
    extract_date_from_experiment "zendesk-evaluation-2025-08-14-abc" =
      Option.some "2025-08-14" ∧
    extract_date_from_experiment "implementation-evaluation-2025-08-15-6e065ee8" =
      Option.some "2025-08-15" ∧
    (∀ k c : PyV,
      determine_ticket_type "2025-08-14" "zendesk-evaluation-2025-08-14-abc" k c =
        determine_ticket_type_ungrouped k c) ∧
    (∀ k c : PyV,
      determine_ticket_type "2025-08-15"
        "implementation-evaluation-2025-08-15-6e065ee8" k c =
      Except.ok "implementation") ∧
    (∀ (r : Run) (t : Option Nat) (e : Entry),
      parseRun r = Except.ok (Option.some e) →
      parseRun { r with start_time := t } =
        Except.ok (Option.some { e with time := t })) := by
  refine ⟨by decide, by decide, fun k c => rfl, fun k c => rfl, ?_⟩
  intro r t e hp
  rw [parseRun_start_shift r t, hp]

/-- C6: witness — the start-time-shift component applied to a concrete run. -/
theorem C6_witness :
    parseRun { mkRun 1 (Option.some 3) "low_quality" with start_time := Option.some 9 } =
      Except.ok (Option.some
        { mkEntry 1 (Option.some 3) "low_quality" with time := Option.some 9 }) := by
  exact C6_theorem.2.2.2.2 (mkRun 1 (Option.some 3) "low_quality") (Option.some 9)
    (mkEntry 1 (Option.some 3) "low_quality") (by decide)

/-- C7: counterexample — with `inputs.x` a mapping lacking `ticket_id`,
the extractor returns `None` even though `outputs.ticket_id` (first
record) or `inputs.run.inputs.x.ticket_id` (second record) is present:
probing stops at location 2, contradicting the claimed fall-through. -/
theorem C7_counterexample :
    extract_ticket_id (PyV.dict [("x", PyV.dict [("foo", PyV.int 1)])])
      (PyV.dict [("ticket_id", PyV.int 5)]) = Except.ok PyV.none ∧
    dictGet [("ticket_id", PyV.int 5)] "ticket_id" = PyV.int 5 ∧
    extract_ticket_id
      (PyV.dict [("x", PyV.dict [("foo", PyV.int 1)]),
        ("run", PyV.dict [("inputs",
          PyV.dict [("x", PyV.dict [("ticket_id", PyV.int 9)])])])])
      (PyV.dict []) = Except.ok PyV.none := by
  exact ⟨by decide, by decide, by decide⟩

/-- C7: amended — the four locations are probed in a fixed order, but the
probe commits to the first matching guard: `inputs.ticket_id` when the key
is present; otherwise, when `inputs.x` is a mapping, its `.get("ticket_id")`
(possibly `None`) is returned without consulting locations 3 and 4;
otherwise the `inputs.run` wrapper; the parsed output's `ticket_id` is
consulted only when none of the earlier guards matched. -/
theorem C7_amended_theorem :
    (∀ (d : List (String × PyV)) (result : PyV), containsKey d "ticket_id" = true →
      extract_ticket_id (PyV.dict d) result = Except.ok (dictGet d "ticket_id")) ∧
    (∀ (d dx : List (String × PyV)) (result : PyV),
      containsKey d "ticket_id" = false →
      lookupK d "x" = Option.some (PyV.dict dx) →
      extract_ticket_id (PyV.dict d) result = Except.ok (dictGet dx "ticket_id")) ∧
    (∀ (d dr di dx2 : List (String × PyV)) (result : PyV),
      containsKey d "ticket_id" = false → lookupK d "x" = Option.none →
      lookupK d "run" = Option.some (PyV.dict dr) →
      dictGetD dr "inputs" (PyV.dict []) = PyV.dict di →
      lookupK di "x" = Option.some (PyV.dict dx2) →
      extract_ticket_id (PyV.dict d) result = Except.ok (dictGet dx2 "ticket_id")) ∧
    (∀ (d : List (String × PyV)) (result : PyV),
      containsKey d "ticket_id" = false →
      lookupK d "x" = Option.none → lookupK d "run" = Option.none →
      extract_ticket_id (PyV.dict d) result = pyGet result "ticket_id") := by
  refine ⟨?_, ?_, ?_, ?_⟩
  · intro d result hck
    have hne : d ≠ [] := by
      rintro rfl; exact absurd hck (by decide)
    unfold extract_ticket_id
    rw [truthy_dict_of_ne d hne]
    simp only [if_true]
    rw [hck]
    simp
  · intro d dx result hck hx
    have hne : d ≠ [] := by
      rintro rfl; exact absurd hx (by simp [lookupK])
    unfold extract_ticket_id
    rw [truthy_dict_of_ne d hne]
    simp only [if_true]
    rw [hck]
    simp only [Bool.false_eq_true, if_false]
    rw [hx]
  · intro d dr di dx2 result hck hx hrun hinp hx2
    have hne : d ≠ [] := by
      rintro rfl; exact absurd hrun (by simp [lookupK])
    unfold extract_ticket_id
    rw [truthy_dict_of_ne d hne]
    simp only [if_true]
    rw [hck]
    simp only [Bool.false_eq_true, if_false]
    rw [hx]
    dsimp only
    rw [hrun]
    dsimp only
    rw [hinp]
    dsimp only
    rw [hx2]
  · intro d result hck hx hrun
    by_cases hne : d = []
    · subst hne; rfl
    · unfold extract_ticket_id
      rw [truthy_dict_of_ne d hne]
      simp only [if_true]
      rw [hck]
      simp only [Bool.false_eq_true, if_false]
      rw [hx]
      dsimp only
      rw [hrun]

/-- Unfolding equation: the loop on a cons. -/
theorem processList_cons (latest : Option Nat) (acc : List Entry) (r : Run)
    (rs : List Run) :
    processList latest acc (r :: rs) =
      match processRun latest acc r with
      | Except.error err => Except.error err
      | Except.ok acc' => processList latest acc' rs := rfl

/-- The guard never fires on a missing candidate timestamp. -/
theorem guardSkip_time_none (latest : Option Nat) :
    guardSkip latest Option.none = false := rfl

/-- The guard never fires when the store has no timestamp at all. -/
theorem guardSkip_latest_none (t : Option Nat) :
    guardSkip Option.none t = false := by
  cases t <;> rfl

/-- Evaluating a batch consisting of one well-parsed record: the upsert
happens iff the guard does not fire. -/
theorem fetch_single (db : Store) (r : Run) (e : Entry)
    (hP : parseRun r = Except.ok (Option.some e)) :
    fetch_and_store_latest_data db [r] =
      if guardSkip (get_latest_timestamp db) e.time then (0, db)
      else (1, upsertRow db e) := by
  unfold fetch_and_store_latest_data
  rw [processList_cons]
  unfold processRun
  rw [hP]
  dsimp only
  by_cases hg : guardSkip (get_latest_timestamp db) e.time
  · rw [if_pos hg, if_pos hg]
    rfl
  · rw [if_neg hg, if_neg hg]
    rfl

/-- C2: amended — the guard compares the candidate against the maximum
start_time of the whole store, not against the row with the candidate's
key: a timestamped candidate is skipped iff the store-wide maximum exists
and the candidate's start_time is less than or equal to it; a candidate
without start_time, or a store with no timestamps, is never skipped by the
guard. -/
theorem C2_amended_theorem (db : Store) (r : Run) (e : Entry)
    (hP : parseRun r = Except.ok (Option.some e)) :
    (∀ t m, e.time = Option.some t → get_latest_timestamp db = Option.some m →
      fetch_and_store_latest_data db [r] =
        if t ≤ m then (0, db) else (1, upsertRow db e)) ∧
    (e.time = Option.none → fetch_and_store_latest_data db [r] = (1, upsertRow db e)) ∧
    (get_latest_timestamp db = Option.none →
      fetch_and_store_latest_data db [r] = (1, upsertRow db e)) := by
  refine ⟨?_, ?_, ?_⟩
  · intro t m ht hm
    rw [fetch_single db r e hP, ht, hm]
    by_cases hle : t ≤ m
    · rw [if_pos hle, if_pos]
      show guardSkip (Option.some m) (Option.some t) = true
      simpa [guardSkip] using hle
    · rw [if_neg hle, if_neg]
      show ¬guardSkip (Option.some m) (Option.some t) = true
      simpa [guardSkip] using hle
  · intro ht
    rw [fetch_single db r e hP, ht, guardSkip_time_none]
    rfl
  · intro hm
    rw [fetch_single db r e hP, hm, guardSkip_latest_none]
    rfl

/-- C2: counterexample — the store `dbC2` holds only the key
(2025-08-20, 1) at start_time 10.  A candidate for the fresh key
(2025-08-20, 2) with start_time 7 has no persisted start_time to compare
against, yet it is skipped (it fails against the store-wide maximum); and
a candidate for key (2025-08-20, 1) without a start_time is upserted,
regressing that key's persisted start_time from 10 to null. -/
def dbC2 : Store := [mkEntry 1 (Option.some 10) "high_quality"]

theorem C2_counterexample :
    findEntry dbC2 ("2025-08-20", PyV.int 2) = Option.none ∧
    fetch_and_store_latest_data dbC2 [mkRun 2 (Option.some 7) "low_quality"] =
      (0, dbC2) ∧
    fetch_and_store_latest_data dbC2 [mkRun 1 Option.none "low_quality"] =
      (1, [mkEntry 1 Option.none "low_quality"]) := by
  exact ⟨by decide, by decide, by decide⟩

/-- C2: witness for the amended theorem at concrete inputs. -/
theorem C2_witness :
    fetch_and_store_latest_data dbC2 [mkRun 3 (Option.some 20) "x"] =
      (1, upsertRow dbC2 (mkEntry 3 (Option.some 20) "x")) := by
  have h := (C2_amended_theorem dbC2 (mkRun 3 (Option.some 20) "x")
    (mkEntry 3 (Option.some 20) "x") (by decide)).1 20 10 rfl (by decide)
  rw [if_neg (by decide)] at h
  exact h

/-- C3: for two well-parsed records sharing the (date, ticket_id) key and
carrying start_times T1 < T2, neither skipped by the guard, the batch
stores exactly the T2 record, in either processing order. -/
theorem C3_theorem (db : Store) (r1 r2 : Run) (e1 e2 : Entry) (t1 t2 : Nat)
    (h1 : parseRun r1 = Except.ok (Option.some e1))
    (h2 : parseRun r2 = Except.ok (Option.some e2))
    (hk : e1.key = e2.key)
    (ht1 : e1.time = Option.some t1) (ht2 : e2.time = Option.some t2)
    (hlt : t1 < t2)
    (hg1 : guardSkip (get_latest_timestamp db) e1.time = false)
    (hg2 : guardSkip (get_latest_timestamp db) e2.time = false) :
    fetch_and_store_latest_data db [r1, r2] = (1, upsertRow db e2) ∧
    fetch_and_store_latest_data db [r2, r1] = (1, upsertRow db e2) := by
  have p1 : processRun (get_latest_timestamp db) [] r1 = Except.ok [e1] := by
    unfold processRun
    rw [h1]
    dsimp only
    rw [hg1]
    rfl
  have p2 : processRun (get_latest_timestamp db) [e1] r2 = Except.ok [e2] := by
    unfold processRun
    rw [h2]
    dsimp only
    rw [hg2]
    show dedupInsert [e1] e2 = _
    unfold dedupInsert
    rw [show findEntry [e1] e2.key = Option.some e1 by simp [findEntry, hk]]
    dsimp only
    rw [ht1, ht2]
    simp [pyGtTime, Bind.bind, Except.bind, hlt, replaceEntry, hk]
  have q1 : processRun (get_latest_timestamp db) [] r2 = Except.ok [e2] := by
    unfold processRun
    rw [h2]
    dsimp only
    rw [hg2]
    rfl
  have q2 : processRun (get_latest_timestamp db) [e2] r1 = Except.ok [e2] := by
    unfold processRun
    rw [h1]
    dsimp only
    rw [hg1]
    show dedupInsert [e2] e1 = _
    unfold dedupInsert
    rw [show findEntry [e2] e1.key = Option.some e2 by simp [findEntry, hk.symm]]
    dsimp only
    rw [ht1, ht2]
    simp [pyGtTime, Bind.bind, Except.bind, Nat.lt_asymm hlt]
  constructor
  · unfold fetch_and_store_latest_data
    rw [processList_cons, p1]
    dsimp only
    rw [processList_cons, p2]
    rfl
  · unfold fetch_and_store_latest_data
    rw [processList_cons, q1]
    dsimp only
    rw [processList_cons, q2]
    rfl

/-- C3: witness at concrete runs, both orders. -/
theorem C3_witness :
    fetch_and_store_latest_data [] [mkRun 1 (Option.some 1) "a", mkRun 1 (Option.some 2) "b"] =
      (1, upsertRow [] (mkEntry 1 (Option.some 2) "b")) ∧
    fetch_and_store_latest_data [] [mkRun 1 (Option.some 2) "b", mkRun 1 (Option.some 1) "a"] =
      (1, upsertRow [] (mkEntry 1 (Option.some 2) "b")) := by
  exact C3_theorem [] (mkRun 1 (Option.some 1) "a") (mkRun 1 (Option.some 2) "b")
    (mkEntry 1 (Option.some 1) "a") (mkEntry 1 (Option.some 2) "b") 1 2
    (by decide) (by decide) (by decide) rfl rfl (by decide) (by decide) (by decide)

/-- C4: counterexample — a group mixing a timestampless entry with a
timestamped one raises TypeError inside the dedup comparison, aborting the
whole batch: nothing is stored and the function reports 0, instead of the
claimed "timestamped entry wins, no exception". -/
theorem C4_counterexample :
    processList Option.none []
      [mkRun 1 Option.none "a", mkRun 1 (Option.some 5) "b"] =
      Except.error PyErr.typeError ∧
    fetch_and_store_latest_data []
      [mkRun 1 Option.none "a", mkRun 1 (Option.some 5) "b"] = (0, []) := by
  exact ⟨by decide, by decide⟩

/-- C4: amended — within a (date, ticket_id) group the entry with the
larger start_time wins (the first encountered wins ties) when both carry
timestamps; but a group containing two entries of which either lacks a
start_time raises TypeError in the comparison, aborting the entire batch
(caught by the outer handler: 0 returned, store untouched); only a group
consisting of a single timestampless entry keeps that entry. -/
theorem C4_amended_theorem (db : Store) (r1 r2 : Run) (e1 e2 : Entry)
    (hM : get_latest_timestamp db = Option.none)
    (h1 : parseRun r1 = Except.ok (Option.some e1))
    (h2 : parseRun r2 = Except.ok (Option.some e2))
    (hk : e1.key = e2.key) :
    (∀ t1 t2, e1.time = Option.some t1 → e2.time = Option.some t2 → t1 < t2 →
      fetch_and_store_latest_data db [r1, r2] = (1, upsertRow db e2)) ∧
    (∀ t1 t2, e1.time = Option.some t1 → e2.time = Option.some t2 → t2 ≤ t1 →
      fetch_and_store_latest_data db [r1, r2] = (1, upsertRow db e1)) ∧
    ((e1.time = Option.none ∨ e2.time = Option.none) →
      fetch_and_store_latest_data db [r1, r2] = (0, db)) ∧
    (e1.time = Option.none → fetch_and_store_latest_data db [r1] = (1, upsertRow db e1)) := by
  have hg : ∀ t : Option Nat, guardSkip (get_latest_timestamp db) t = false := by
    intro t; rw [hM]; exact guardSkip_latest_none t
  refine ⟨?_, ?_, ?_, ?_⟩
  · intro t1 t2 ht1 ht2 hlt
    exact (C3_theorem db r1 r2 e1 e2 t1 t2 h1 h2 hk ht1 ht2 hlt
      (hg e1.time) (hg e2.time)).1
  · intro t1 t2 ht1 ht2 hle
    have p1 : processRun (get_latest_timestamp db) [] r1 = Except.ok [e1] := by
      unfold processRun
      rw [h1]
      dsimp only
      rw [hg e1.time]
      rfl
    have p2 : processRun (get_latest_timestamp db) [e1] r2 = Except.ok [e1] := by
      unfold processRun
      rw [h2]
      dsimp only
      rw [hg e2.time]
      show dedupInsert [e1] e2 = _
      unfold dedupInsert
      rw [show findEntry [e1] e2.key = Option.some e1 by simp [findEntry, hk]]
      dsimp only
      rw [ht1, ht2]
      simp [pyGtTime, Bind.bind, Except.bind, Nat.not_lt.mpr hle]
    unfold fetch_and_store_latest_data
    rw [processList_cons, p1]
    dsimp only
    rw [processList_cons, p2]
    rfl
  · intro hor
    have p1 : processRun (get_latest_timestamp db) [] r1 = Except.ok [e1] := by
      unfold processRun
      rw [h1]
      dsimp only
      rw [hg e1.time]
      rfl
    have p2 : processRun (get_latest_timestamp db) [e1] r2 =
        Except.error PyErr.typeError := by
      unfold processRun
      rw [h2]
      dsimp only
      rw [hg e2.time]
      show dedupInsert [e1] e2 = _
      unfold dedupInsert
      rw [show findEntry [e1] e2.key = Option.some e1 by simp [findEntry, hk]]
      have hpg : pyGtTime e2.time e1.time = Except.error PyErr.typeError := by
        rcases hor with hn1 | hn2
        · rw [hn1]; cases e2.time <;> rfl
        · rw [hn2]; cases e1.time <;> rfl
      dsimp only
      rw [hpg]
      rfl
    unfold fetch_and_store_latest_data
    rw [processList_cons, p1]
    dsimp only
    rw [processList_cons, p2]
  · intro ht
    rw [fetch_single db r1 e1 h1, ht, guardSkip_time_none]
    rfl

/-- C4: witness for the amended theorem at concrete inputs. -/
theorem C4_witness :
    fetch_and_store_latest_data [] [mkRun 1 (Option.some 5) "a", mkRun 1 Option.none "b"] =
      (0, []) ∧
    fetch_and_store_latest_data [] [mkRun 1 Option.none "b"] =
      (1, upsertRow [] (mkEntry 1 Option.none "b")) := by
  have h := C4_amended_theorem [] (mkRun 1 (Option.some 5) "a") (mkRun 1 Option.none "b")
    (mkEntry 1 (Option.some 5) "a") (mkEntry 1 Option.none "b")
    rfl (by decide) (by decide) (by decide)
  have h2 := C4_amended_theorem [] (mkRun 1 Option.none "b") (mkRun 1 (Option.some 5) "a")
    (mkEntry 1 Option.none "b") (mkEntry 1 (Option.some 5) "a")
    rfl (by decide) (by decide) (by decide)
  exact ⟨h.2.2.1 (Or.inr rfl), h2.2.2.2 rfl⟩

/-- A record whose parsing hits a `continue` leaves the loop state alone,
wherever it sits in the batch. -/
theorem processList_middle (latest : Option Nat) (r : Run)
    (hr : parseRun r = Except.ok Option.none) :
    ∀ (xs : List Run) (acc : List Entry) (ys : List Run),
      processList latest acc (xs ++ r :: ys) = processList latest acc (xs ++ ys) := by
  intro xs
  induction xs with
  | nil =>
    intro acc ys
    show processList latest acc (r :: ys) = _
    rw [processList_cons]
    unfold processRun
    rw [hr]
    dsimp only
    rw [List.nil_append]
  | cons x xs ih =>
    intro acc ys
    show processList latest acc ((x :: xs) ++ r :: ys) =
      processList latest acc ((x :: xs) ++ ys)
    rw [List.cons_append, List.cons_append, processList_cons, processList_cons]
    cases hx : processRun latest acc x with
    | error err => rfl
    | ok acc' =>
      dsimp only
      exact ih acc' ys

/-- C5: a malformed record — unparseable JSON output, or an experiment
label yielding no date, or no resolvable ticket_id — parses to a silent
drop (`continue`), and removing it from anywhere in the batch leaves the
outcome on the store (and the returned count) unchanged: it never aborts
the rest of the batch. -/
theorem C5_theorem (db : Store) (xs ys : List Run) (r : Run)
    (h : r.outputs = Output.ostr Option.none ∨
      (∀ exp, r.experiment = Option.some exp →
        extract_date_from_experiment exp = Option.none) ∨
      (∃ d, parseResult r.outputs = Option.some (PyV.dict d) ∧
        extract_ticket_id r.inputs (PyV.dict d) = Except.ok PyV.none)) :
    parseRun r = Except.ok Option.none ∧
    fetch_and_store_latest_data db (xs ++ r :: ys) =
      fetch_and_store_latest_data db (xs ++ ys) := by
  have hr : parseRun r = Except.ok Option.none := by
    unfold parseRun
    cases hexp : r.experiment with
    | none => rfl
    | some exp =>
      dsimp only
      by_cases hne : exp = ""
      · rw [if_pos hne]
      · rw [if_neg hne]
        cases hdate : extract_date_from_experiment exp with
        | none => rfl
        | some ds =>
          dsimp only
          rcases h with hA | hB | hC
          · by_cases hname : r.name = Option.some "detailed_similarity_evaluator"
            · rw [if_pos hname,
                show parseResult r.outputs = Option.none by rw [hA]; rfl]
            · rw [if_neg hname]
          · rw [hB exp hexp] at hdate
            exact absurd hdate (by simp)
          · obtain ⟨d, hres, hti⟩ := hC
            by_cases hname : r.name = Option.some "detailed_similarity_evaluator"
            · rw [if_pos hname, hres]
              dsimp only
              simp only [pyGet, pyGetD, Bind.bind, Except.bind, hti]
              simp
            · rw [if_neg hname]
  refine ⟨hr, ?_⟩
  unfold fetch_and_store_latest_data
  rw [processList_middle (get_latest_timestamp db) r hr xs [] ys]

/-- C5: witness — a record with no resolvable ticket_id dropped from the
middle of a concrete batch. -/
def rNoTid : Run :=
  { name := Option.some "detailed_similarity_evaluator",
    experiment := Option.some "implementation-evaluation-2025-08-20-xyz",
    inputs := PyV.none,
    outputs := Output.odict [("quality", PyV.str "low_quality")],
    start_time := Option.some 3 }

theorem C5_witness :
    parseRun rNoTid = Except.ok Option.none ∧
    fetch_and_store_latest_data [] [mkRun 1 (Option.some 1) "a", rNoTid] =
      fetch_and_store_latest_data [] [mkRun 1 (Option.some 1) "a"] := by
  have h := C5_theorem [] [mkRun 1 (Option.some 1) "a"] [] rNoTid
    (Or.inr (Or.inr ⟨[("quality", PyV.str "low_quality")], by decide, by decide⟩))
  exact h

/-- C10: if any exception is raised while processing the batch, the outer
handler catches it, the function returns 0, and the table is exactly as
before the call: no write happens before `store_evaluations`, which runs
only after the whole batch succeeded. -/
theorem C10_theorem (db : Store) (runs : List Run) (err : PyErr)
    (h : processList (get_latest_timestamp db) [] runs = Except.error err) :
    fetch_and_store_latest_data db runs = (0, db) := by
  unfold fetch_and_store_latest_data
  rw [h]

/-- C10: witness — a batch aborted by the None-comparison TypeError leaves
the (empty) store untouched and returns 0. -/
theorem C10_witness :
    fetch_and_store_latest_data [] [mkRun 2 Option.none "a", mkRun 2 (Option.some 3) "b"] =
      (0, []) := by
  exact C10_theorem [] [mkRun 2 Option.none "a", mkRun 2 (Option.some 3) "b"]
    PyErr.typeError (by decide)

/-! ## Lemmas towards the idempotence analysis (C9) -/

/-- `findEntry` misses exactly when no entry carries the key. -/
theorem findEntry_eq_none (acc : List Entry) (k : String × PyV) :
    findEntry acc k = Option.none ↔ ∀ x ∈ acc, x.key ≠ k := by
  induction acc with
  | nil => simp [findEntry]
  | cons a l ih =>
    unfold findEntry
    by_cases h : a.key = k
    · rw [if_pos h]
      simp [h]
    · rw [if_neg h]
      rw [ih]
      simp [h]

/-- A found entry is a member carrying the key. -/
theorem findEntry_some (acc : List Entry) (k : String × PyV) (x : Entry)
    (h : findEntry acc k = Option.some x) : x ∈ acc ∧ x.key = k := by
  induction acc with
  | nil => simp [findEntry] at h
  | cons a l ih =>
    unfold findEntry at h
    by_cases hk : a.key = k
    · rw [if_pos hk] at h
      injection h with h
      subst h
      exact ⟨List.mem_cons_self a l, hk⟩
    · rw [if_neg hk] at h
      obtain ⟨h1, h2⟩ := ih h
      exact ⟨List.mem_cons_of_mem a h1, h2⟩

/-- Members of a replacement come from the replacement or the original. -/
theorem replaceEntry_mem (acc : List Entry) (e x : Entry)
    (h : x ∈ replaceEntry acc e) : x = e ∨ x ∈ acc := by
  induction acc with
  | nil => simp [replaceEntry] at h
  | cons a l ih =>
    unfold replaceEntry at h
    by_cases hk : a.key = e.key
    · rw [if_pos hk] at h
      rcases List.mem_cons.mp h with h1 | h2
      · exact Or.inl h1
      · exact Or.inr (List.mem_cons_of_mem a h2)
    · rw [if_neg hk] at h
      rcases List.mem_cons.mp h with h1 | h2
      · exact Or.inr (h1 ▸ List.mem_cons_self a l)
      · rcases ih h2 with h3 | h4
        · exact Or.inl h3
        · exact Or.inr (List.mem_cons_of_mem a h4)

/-- When some entry carries the key, the replacement contains `e`. -/
theorem mem_replaceEntry_self (acc : List Entry) (e : Entry)
    (hex : findEntry acc e.key ≠ Option.none) : e ∈ replaceEntry acc e := by
  induction acc with
  | nil => simp [findEntry] at hex
  | cons a l ih =>
    unfold replaceEntry
    unfold findEntry at hex
    by_cases hk : a.key = e.key
    · rw [if_pos hk]
      exact List.mem_cons_self e l
    · rw [if_neg hk]
      rw [if_neg hk] at hex
      exact List.mem_cons_of_mem a (ih hex)

/-- An original member either survives a replacement or carried its key. -/
theorem mem_replaceEntry_of_mem (acc : List Entry) (e x : Entry) (hx : x ∈ acc) :
    x ∈ replaceEntry acc e ∨ x.key = e.key := by
  induction acc with
  | nil => simp at hx
  | cons a l ih =>
    unfold replaceEntry
    by_cases hk : a.key = e.key
    · rw [if_pos hk]
      rcases List.mem_cons.mp hx with h1 | h2
      · exact Or.inr (h1 ▸ hk)
      · exact Or.inl (List.mem_cons_of_mem e h2)
    · rw [if_neg hk]
      rcases List.mem_cons.mp hx with h1 | h2
      · exact Or.inl (h1 ▸ List.mem_cons_self a (replaceEntry l e))
      · rcases ih h2 with h3 | h4
        · exact Or.inl (List.mem_cons_of_mem a h3)
        · exact Or.inr h4

/-- Members with a different key always survive a replacement. -/
theorem mem_replaceEntry_of_ne (acc : List Entry) (e x : Entry)
    (hx : x ∈ acc) (hne : x.key ≠ e.key) : x ∈ replaceEntry acc e :=
  (mem_replaceEntry_of_mem acc e x hx).resolve_right hne

/-- Replacement preserves key-uniqueness. -/
theorem uniqKeys_replaceEntry (acc : List Entry) (e : Entry)
    (hu : uniqKeys acc) : uniqKeys (replaceEntry acc e) := by
  induction acc with
  | nil => trivial
  | cons a l ih =>
    obtain ⟨h1, h2⟩ := hu
    unfold replaceEntry
    by_cases hk : a.key = e.key
    · rw [if_pos hk]
      exact ⟨fun x hx => hk ▸ h1 x hx, h2⟩
    · rw [if_neg hk]
      refine ⟨?_, ih h2⟩
      intro x hx
      rcases replaceEntry_mem l e x hx with h3 | h4
      · exact h3 ▸ fun hh => hk hh.symm
      · exact h1 x h4

/-- Appending a fresh key preserves key-uniqueness. -/
theorem uniqKeys_append (acc : List Entry) (e : Entry) (hu : uniqKeys acc)
    (hnone : ∀ x ∈ acc, x.key ≠ e.key) : uniqKeys (acc ++ [e]) := by
  induction acc with
  | nil =>
    refine ⟨?_, trivial⟩
    intro x hx
    simp at hx
  | cons a l ih =>
    obtain ⟨h1, h2⟩ := hu
    refine ⟨?_, ih h2 (fun x hx => hnone x (List.mem_cons_of_mem a hx))⟩
    intro x hx
    rcases List.mem_append.mp hx with h3 | h4
    · exact h1 x h3
    · have hxe : x = e := by simpa using h4
      subst hxe
      exact fun hh => hnone a (List.mem_cons_self a l) hh.symm

/-- In a key-unique list, the key determines the entry. -/
theorem uniqKeys_key_inj (acc : List Entry) (hu : uniqKeys acc) (x y : Entry)
    (hx : x ∈ acc) (hy : y ∈ acc) (hk : x.key = y.key) : x = y := by
  induction acc with
  | nil => simp at hx
  | cons a l ih =>
    obtain ⟨h1, h2⟩ := hu
    rcases List.mem_cons.mp hx with rfl | hxl
    · rcases List.mem_cons.mp hy with rfl | hyl
      · rfl
      · exact absurd hk.symm (h1 y hyl)
    · rcases List.mem_cons.mp hy with rfl | hyl
      · exact absurd hk (h1 x hxl)
      · exact ih h2 hxl hyl

/-- Everything `dedupInsert` guarantees when the candidate has a
timestamp above the guard threshold and the accumulator is well-formed:
key-uniqueness and goodness are preserved, every old entry is dominated by
some new entry of at least its timestamp, and some entry now dominates the
candidate's timestamp. -/
theorem dedupInsert_spec (latest : Option Nat) (acc : List Entry) (e : Entry)
    (te : Nat) (hte : e.time = Option.some te)
    (hgood : goodAcc latest acc) (hu : uniqKeys acc)
    (hge : ∀ m, latest = Option.some m → m < te)
    (acc' : List Entry) (h : dedupInsert acc e = Except.ok acc') :
    uniqKeys acc' ∧ goodAcc latest acc' ∧
    (∀ x ∈ acc, ∃ x' ∈ acc', ∃ tx tx', x.time = Option.some tx ∧
      x'.time = Option.some tx' ∧ tx ≤ tx') ∧
    (∃ x' ∈ acc', ∃ tx', x'.time = Option.some tx' ∧ te ≤ tx') := by
  unfold dedupInsert at h
  cases hf : findEntry acc e.key with
  | none =>
    rw [hf] at h
    injection h with h
    subst h
    have hnone : ∀ x ∈ acc, x.key ≠ e.key := (findEntry_eq_none acc e.key).mp hf
    refine ⟨uniqKeys_append acc e hu hnone, ?_, ?_, ?_⟩
    · intro x hx
      rcases List.mem_append.mp hx with h1 | h2
      · exact hgood x h1
      · have hxe : x = e := by simpa using h2
        subst hxe
        exact ⟨te, hte, hge⟩
    · intro x hx
      obtain ⟨tx, htx, -⟩ := hgood x hx
      exact ⟨x, List.mem_append_left [e] hx, tx, tx, htx, htx, le_refl tx⟩
    · exact ⟨e, List.mem_append_right acc (by simp), te, hte, le_refl te⟩
  | some old =>
    rw [hf] at h
    dsimp only at h
    obtain ⟨hold_mem, hold_key⟩ := findEntry_some acc e.key old hf
    obtain ⟨told, htold, -⟩ := hgood old hold_mem
    rw [hte, htold] at h
    simp only [pyGtTime, Bind.bind, Except.bind] at h
    by_cases hlt : told < te
    · rw [if_pos (by simpa using hlt)] at h
      injection h with h
      subst h
      have hselF : e ∈ replaceEntry acc e :=
        mem_replaceEntry_self acc e (by rw [hf]; simp)
      refine ⟨uniqKeys_replaceEntry acc e hu, ?_, ?_, ?_⟩
      · intro x hx
        rcases replaceEntry_mem acc e x hx with h1 | h2
        · exact h1 ▸ ⟨te, hte, hge⟩
        · exact hgood x h2
      · intro x hx
        obtain ⟨tx, htx, -⟩ := hgood x hx
        by_cases hxk : x.key = e.key
        · have hxold : x = old := uniqKeys_key_inj acc hu x old hx hold_mem
            (by rw [hxk, hold_key])
          subst hxold
          refine ⟨e, hselF, tx, te, htx, hte, ?_⟩
          have : tx = told := by rw [htx] at htold; injection htold
          exact this ▸ le_of_lt hlt
        · exact ⟨x, mem_replaceEntry_of_ne acc e x hx hxk, tx, tx, htx, htx,
            le_refl tx⟩
      · exact ⟨e, hselF, te, hte, le_refl te⟩
    · rw [if_neg (by simpa using hlt)] at h
      injection h with h
      subst h
      refine ⟨hu, hgood, ?_, ?_⟩
      · intro x hx
        obtain ⟨tx, htx, -⟩ := hgood x hx
        exact ⟨x, hx, tx, tx, htx, htx, le_refl tx⟩
      · exact ⟨old, hold_mem, told, htold, Nat.le_of_not_lt hlt⟩

/-- An upsert always contains the upserted row. -/
theorem mem_upsertRow_self (db : Store) (e : Entry) : e ∈ upsertRow db e := by
  unfold upsertRow
  cases hf : findEntry db e.key with
  | none => exact List.mem_append_right db (by simp)
  | some old => exact mem_replaceEntry_self db e (by rw [hf]; simp)

/-- An upsert keeps every row of a different key. -/
theorem mem_upsertRow_of_ne (db : Store) (e x : Entry) (hx : x ∈ db)
    (hne : x.key ≠ e.key) : x ∈ upsertRow db e := by
  unfold upsertRow
  cases hf : findEntry db e.key with
  | none => exact List.mem_append_left [e] hx
  | some old => exact mem_replaceEntry_of_ne db e x hx hne

/-- Every original row is covered, key-wise, after an upsert: by itself or
by the upserted row. -/
theorem upsertRow_cover (db : Store) (e x : Entry) (hx : x ∈ db) :
    ∃ y ∈ upsertRow db e, (y = x ∨ y = e) ∧ y.key = x.key := by
  unfold upsertRow
  cases hf : findEntry db e.key with
  | none => exact ⟨x, List.mem_append_left [e] hx, Or.inl rfl, rfl⟩
  | some old =>
    rcases mem_replaceEntry_of_mem db e x hx with h1 | h2
    · exact ⟨x, h1, Or.inl rfl, rfl⟩
    · exact ⟨e, mem_replaceEntry_self db e (by rw [hf]; simp), Or.inr rfl, h2.symm⟩

/-- A row whose key appears nowhere in the batch survives the store pass. -/
theorem store_keeps (acc : List Entry) : ∀ (db : Store) (x : Entry), x ∈ db →
    (∀ e ∈ acc, e.key ≠ x.key) → x ∈ store_evaluations db acc := by
  induction acc with
  | nil =>
    intro db x hx _
    exact hx
  | cons e l ih =>
    intro db x hx hne
    show x ∈ store_evaluations (upsertRow db e) l
    refine ih (upsertRow db e) x ?_ (fun y hy => hne y (List.mem_cons_of_mem e hy))
    exact mem_upsertRow_of_ne db e x hx
      (fun hh => hne e (List.mem_cons_self e l) hh.symm)

/-- With key-unique batches, every batch entry ends up in the store. -/
theorem mem_store_of_mem_acc (acc : List Entry) : ∀ (db : Store), uniqKeys acc →
    ∀ e ∈ acc, e ∈ store_evaluations db acc := by
  induction acc with
  | nil =>
    intro db _ e he
    simp at he
  | cons a l ih =>
    intro db hu e he
    obtain ⟨h1, h2⟩ := hu
    rcases List.mem_cons.mp he with rfl | hel
    · show e ∈ store_evaluations (upsertRow db e) l
      exact store_keeps l (upsertRow db e) e (mem_upsertRow_self db e) h1
    · exact ih (upsertRow db a) h2 e hel

/-- Every original row is covered, key-wise, after the store pass: by
itself or by some batch entry. -/
theorem store_cover (acc : List Entry) : ∀ (db : Store) (x : Entry), x ∈ db →
    ∃ y ∈ store_evaluations db acc, (y = x ∨ y ∈ acc) ∧ y.key = x.key := by
  induction acc with
  | nil =>
    intro db x hx
    exact ⟨x, hx, Or.inl rfl, rfl⟩
  | cons e l ih =>
    intro db x hx
    obtain ⟨y1, hy1, hor, hk⟩ := upsertRow_cover db e x hx
    obtain ⟨y2, hy2, hor2, hk2⟩ := ih (upsertRow db e) y1 hy1
    refine ⟨y2, hy2, ?_, hk2.trans hk⟩
    rcases hor2 with rfl | h2
    · rcases hor with h1 | h1
      · exact Or.inl h1
      · exact Or.inr (h1 ▸ List.mem_cons_self e l)
    · exact Or.inr (List.mem_cons_of_mem e h2)

/-- The MAX fold never drops below a `some` seed. -/
theorem foldl_sqlMax_init_le (db : Store) : ∀ a : Nat,
    ∃ b, db.foldl (fun m r => sqlMax m r.time) (Option.some a) = Option.some b ∧
      a ≤ b := by
  induction db with
  | nil => exact fun a => ⟨a, rfl, le_refl a⟩
  | cons r l ih =>
    intro a
    show ∃ b, l.foldl _ (sqlMax (Option.some a) r.time) = _ ∧ _
    cases hrt : r.time with
    | none => exact ih a
    | some t =>
      obtain ⟨b, hb, hab⟩ := ih (max a t)
      exact ⟨b, hb, le_trans (le_max_left a t) hab⟩

/-- Any timestamped row is bounded by the store-wide maximum. -/
theorem mem_le_latest (db : Store) (x : Entry) (t : Nat) (hx : x ∈ db)
    (ht : x.time = Option.some t) :
    ∃ m, get_latest_timestamp db = Option.some m ∧ t ≤ m := by
  suffices H : ∀ (l : List Entry) (init : Option Nat), x ∈ l →
      ∃ m, l.foldl (fun m r => sqlMax m r.time) init = Option.some m ∧ t ≤ m from
    H db Option.none hx
  intro l
  induction l with
  | nil =>
    intro init h
    simp at h
  | cons r l ih =>
    intro init hmem
    rcases List.mem_cons.mp hmem with rfl | hml
    · show ∃ m, l.foldl _ (sqlMax init x.time) = _ ∧ _
      rw [ht]
      cases init with
      | none => exact foldl_sqlMax_init_le l t
      | some a =>
        obtain ⟨b, hb, hab⟩ := foldl_sqlMax_init_le l (max a t)
        exact ⟨b, hb, le_trans (le_max_right a t) hab⟩
    · exact ih (sqlMax init r.time) hml

/-- The store-wide maximum is attained by some row. -/
theorem latest_attained (db : Store) (m : Nat)
    (h : get_latest_timestamp db = Option.some m) :
    ∃ x ∈ db, x.time = Option.some m := by
  suffices H : ∀ (l : List Entry) (init : Option Nat),
      l.foldl (fun m r => sqlMax m r.time) init = Option.some m →
      init = Option.some m ∨ ∃ x ∈ l, x.time = Option.some m by
    rcases H db Option.none h with h1 | h2
    · exact absurd h1 (by simp)
    · exact h2
  intro l
  induction l with
  | nil => exact fun init h0 => Or.inl h0
  | cons r l ih =>
    intro init h0
    rcases ih (sqlMax init r.time) h0 with h1 | h2
    · cases hin : init with
      | none =>
        cases hrt : r.time with
        | none =>
          rw [hin, hrt] at h1
          exact absurd h1 (by simp [sqlMax])
        | some b =>
          rw [hin, hrt] at h1
          refine Or.inr ⟨r, List.mem_cons_self r l, ?_⟩
          rw [hrt]
          exact h1
      | some a =>
        cases hrt : r.time with
        | none =>
          rw [hin, hrt] at h1
          exact Or.inl (by simpa [sqlMax] using h1)
        | some b =>
          rw [hin, hrt] at h1
          have hmx : max a b = m := by
            simpa [sqlMax] using h1
          rcases max_choice a b with hc | hc
          · exact Or.inl (by rw [← hmx, hc])
          · refine Or.inr ⟨r, List.mem_cons_self r l, ?_⟩
            rw [hrt, ← hmx, hc]
    · obtain ⟨x, hxl, hxt⟩ := h2
      exact Or.inr ⟨x, List.mem_cons_of_mem r hxl, hxt⟩

/-- Eliminating a fired guard. -/
theorem guardSkip_true_elim (latest tm : Option Nat) (t : Nat)
    (ht : tm = Option.some t) (h : guardSkip latest tm = true) :
    ∃ m, latest = Option.some m ∧ t ≤ m := by
  subst ht
  unfold guardSkip at h
  cases latest with
  | none => simp at h
  | some m => exact ⟨m, rfl, by simpa using h⟩

/-- Introducing a fired guard. -/
theorem guardSkip_true_intro (m t : Nat) (h : t ≤ m) :
    guardSkip (Option.some m) (Option.some t) = true := by
  simpa [guardSkip] using h

/-- Eliminating an un-fired guard on a timestamped candidate. -/
theorem guardSkip_false_elim (latest : Option Nat) (t : Nat)
    (h : guardSkip latest (Option.some t) = false) :
    ∀ m, latest = Option.some m → m < t := by
  intro m hm
  subst hm
  unfold guardSkip at h
  simpa [Nat.lt_iff_le_and_ne, Nat.not_le] using h

/-- A successful loop pass means every record parsed without raising. -/
theorem processList_parse_ok (latest : Option Nat) : ∀ (runs : List Run)
    (acc accF : List Entry), processList latest acc runs = Except.ok accF →
    ∀ r ∈ runs, ∃ o, parseRun r = Except.ok o := by
  intro runs
  induction runs with
  | nil =>
    intro acc accF _ r hr
    simp at hr
  | cons r0 rs ih =>
    intro acc accF h r hr
    rw [processList_cons] at h
    cases hpr : processRun latest acc r0 with
    | error err => rw [hpr] at h; simp at h
    | ok acc1 =>
      rw [hpr] at h
      dsimp only at h
      rcases List.mem_cons.mp hr with rfl | hrs
      · unfold processRun at hpr
        cases hp : parseRun r with
        | error err => rw [hp] at hpr; simp at hpr
        | ok o => exact ⟨o, rfl⟩
      · exact ih acc1 accF h r hrs

/-- If every record either parses to a drop or to a guard-skipped entry,
the loop produces nothing. -/
theorem processList_all_skip (latest : Option Nat) : ∀ runs : List Run,
    (∀ r ∈ runs, parseRun r = Except.ok Option.none ∨
      ∃ e, parseRun r = Except.ok (Option.some e) ∧
        guardSkip latest e.time = true) →
    processList latest [] runs = Except.ok [] := by
  intro runs
  induction runs with
  | nil => intro _; rfl
  | cons r rs ih =>
    intro h
    rw [processList_cons]
    have htail := ih (fun r' hr' => h r' (List.mem_cons_of_mem r hr'))
    rcases h r (List.mem_cons_self r rs) with h1 | ⟨e, h2, h3⟩
    · unfold processRun
      rw [h1]
      dsimp only
      exact htail
    · unfold processRun
      rw [h2]
      dsimp only
      rw [if_pos h3]
      exact htail

/-- The main loop invariant for an all-timestamped batch: a successful
pass yields a key-unique accumulator of guard-passing entries, dominating
(time-wise) everything it absorbed, and every parsed candidate is either
guard-skipped or dominated by some final entry. -/
theorem processList_invariant (latest : Option Nat) : ∀ (runs : List Run)
    (acc accF : List Entry),
    processList latest acc runs = Except.ok accF →
    (∀ r ∈ runs, (r.start_time).isSome = true) →
    uniqKeys acc → goodAcc latest acc →
    uniqKeys accF ∧ goodAcc latest accF ∧
    (∀ x ∈ acc, ∃ x' ∈ accF, ∃ tx tx', x.time = Option.some tx ∧
      x'.time = Option.some tx' ∧ tx ≤ tx') ∧
    (∀ r ∈ runs, ∀ e, parseRun r = Except.ok (Option.some e) →
      guardSkip latest e.time = true ∨
      ∃ x' ∈ accF, ∃ t tx', e.time = Option.some t ∧
        x'.time = Option.some tx' ∧ t ≤ tx') := by
  intro runs
  induction runs with
  | nil =>
    intro acc accF h hTS hu hgood
    have hacc : acc = accF := by
      simpa [processList] using h
    subst hacc
    refine ⟨hu, hgood, ?_, ?_⟩
    · intro x hx
      obtain ⟨tx, htx, -⟩ := hgood x hx
      exact ⟨x, hx, tx, tx, htx, htx, le_refl tx⟩
    · intro r hr
      simp at hr
  | cons r rs ih =>
    intro acc accF h hTS hu hgood
    rw [processList_cons] at h
    cases hpr : processRun latest acc r with
    | error err => rw [hpr] at h; simp at h
    | ok acc1 =>
      rw [hpr] at h
      dsimp only at h
      have hTStail : ∀ r' ∈ rs, (r'.start_time).isSome = true :=
        fun r' hr' => hTS r' (List.mem_cons_of_mem r hr')
      unfold processRun at hpr
      cases hp : parseRun r with
      | error err => rw [hp] at hpr; simp at hpr
      | ok o =>
        rw [hp] at hpr
        cases o with
        | none =>
          dsimp only at hpr
          injection hpr with hpr
          subst hpr
          obtain ⟨huF, hgoodF, hcov, hper⟩ := ih acc accF h hTStail hu hgood
          refine ⟨huF, hgoodF, hcov, ?_⟩
          intro r0 hr0 e hpe
          rcases List.mem_cons.mp hr0 with rfl | hrs
          · rw [hp] at hpe; simp at hpe
          · exact hper r0 hrs e hpe
        | some e =>
          dsimp only at hpr
          by_cases hg : guardSkip latest e.time
          · rw [if_pos hg] at hpr
            injection hpr with hpr
            subst hpr
            obtain ⟨huF, hgoodF, hcov, hper⟩ := ih acc accF h hTStail hu hgood
            refine ⟨huF, hgoodF, hcov, ?_⟩
            intro r0 hr0 e' hpe
            rcases List.mem_cons.mp hr0 with rfl | hrs
            · have hee : e' = e := by
                rw [hp] at hpe
                injection hpe with hpe
                injection hpe with hpe2
                exact hpe2.symm
              exact Or.inl (hee ▸ hg)
            · exact hper r0 hrs e' hpe
          · rw [if_neg hg] at hpr
            have hts : (r.start_time).isSome = true :=
              hTS r (List.mem_cons_self r rs)
            have htime : e.time = r.start_time := (parseRun_spec r e hp).1
            obtain ⟨te, hte⟩ : ∃ te, e.time = Option.some te := by
              rw [htime]
              cases hst : r.start_time with
              | none => rw [hst] at hts; simp at hts
              | some te => exact ⟨te, rfl⟩
            have hge : ∀ m, latest = Option.some m → m < te :=
              guardSkip_false_elim latest te
                (by rw [← hte]; simpa using hg)
            obtain ⟨hu1, hgood1, hcov1, hself1⟩ :=
              dedupInsert_spec latest acc e te hte hgood hu hge acc1 hpr
            obtain ⟨huF, hgoodF, hcovF, hperF⟩ := ih acc1 accF h hTStail hu1 hgood1
            refine ⟨huF, hgoodF, ?_, ?_⟩
            · intro x hx
              obtain ⟨x1, hx1, tx, tx1, htx, htx1, hle1⟩ := hcov1 x hx
              obtain ⟨x2, hx2, tx1b, tx2, htx1b, htx2, hle2⟩ := hcovF x1 hx1
              have htx1e : tx1b = tx1 := by
                rw [htx1] at htx1b
                injection htx1b with hh
                exact hh.symm
              exact ⟨x2, hx2, tx, tx2, htx, htx2,
                le_trans hle1 (htx1e ▸ hle2)⟩
            · intro r0 hr0 e' hpe
              rcases List.mem_cons.mp hr0 with rfl | hrs
              · have hee : e' = e := by
                  rw [hp] at hpe
                  injection hpe with hpe
                  injection hpe with hpe2
                  exact hpe2.symm
                subst hee
                obtain ⟨x1, hx1, tx1, htx1, hle1⟩ := hself1
                obtain ⟨x2, hx2, tx1b, tx2, htx1b, htx2, hle2⟩ := hcovF x1 hx1
                have htx1e : tx1b = tx1 := by
                  rw [htx1] at htx1b
                  injection htx1b with hh
                  exact hh.symm
                exact Or.inr ⟨x2, hx2, te, tx2, hte, htx2,
                  le_trans hle1 (htx1e ▸ hle2)⟩
              · rcases hperF r0 hrs e' hpe with h1 | ⟨x1, hx1, t', tx1, ht', htx1, hle1⟩
                · exact Or.inl h1
                · exact Or.inr ⟨x1, hx1, t', tx1, ht', htx1, hle1⟩

/-- C9: counterexample — from a store holding (2025-08-20, 1) at
start_time 10, the batch [run for key 1 without start_time, run for key 2
at start_time 5] is not idempotent: the first application overwrites the
max row with a NULL start_time (and skips the key-2 run against max 10);
the second application, now seeing no store maximum, also stores the key-2
run, so the second pass changes the row count from 1 to 2. -/
def c9db0 : Store := [mkEntry 1 (Option.some 10) "high_quality"]

def c9batch : List Run := [mkRun 1 Option.none "x", mkRun 2 (Option.some 5) "y"]

theorem C9_counterexample :
    (fetch_and_store_latest_data c9db0 c9batch).2.length = 1 ∧
    (fetch_and_store_latest_data
      (fetch_and_store_latest_data c9db0 c9batch).2 c9batch).2.length = 2 := by
  exact ⟨by decide, by decide⟩

/-- C9: amended — when every record of the batch carries a start_time,
applying the batch twice (from any initial store) equals applying it once:
the second application skips every candidate against the new store-wide
maximum, stores nothing, and returns 0.  (With timestampless records the
property can fail, as a NULL-start_time upsert can lower the store-wide
maximum and un-skip previously skipped records.) -/
theorem C9_amended_theorem (db : Store) (runs : List Run)
    (hTS : ∀ r ∈ runs, (r.start_time).isSome = true) :
    fetch_and_store_latest_data (fetch_and_store_latest_data db runs).2 runs =
      (0, (fetch_and_store_latest_data db runs).2) := by
  cases hpl : processList (get_latest_timestamp db) [] runs with
  | error err =>
    have hf1 : fetch_and_store_latest_data db runs = (0, db) := by
      unfold fetch_and_store_latest_data
      rw [hpl]
    rw [hf1]
    unfold fetch_and_store_latest_data
    rw [hpl]
  | ok accF =>
    by_cases hempty : accF.isEmpty
    · have hf1 : fetch_and_store_latest_data db runs = (0, db) := by
        unfold fetch_and_store_latest_data
        rw [hpl]
        dsimp only
        rw [if_pos hempty]
      rw [hf1]
      unfold fetch_and_store_latest_data
      rw [hpl]
      dsimp only
      rw [if_pos hempty]
    · have hf1 : fetch_and_store_latest_data db runs =
          (accF.length, store_evaluations db accF) := by
        unfold fetch_and_store_latest_data
        rw [hpl]
        dsimp only
        rw [if_neg hempty]
      rw [hf1]
      dsimp only
      obtain ⟨huF, hgoodF, -, hper⟩ :=
        processList_invariant (get_latest_timestamp db) runs [] accF hpl hTS
          trivial (fun x hx => absurd hx (List.not_mem_nil x))
      have hskip : ∀ r ∈ runs, ∀ e, parseRun r = Except.ok (Option.some e) →
          guardSkip (get_latest_timestamp (store_evaluations db accF)) e.time =
            true := by
        intro r hr e hpe
        have hts := hTS r hr
        have htime : e.time = r.start_time := (parseRun_spec r e hpe).1
        obtain ⟨t, ht⟩ : ∃ t, e.time = Option.some t := by
          rw [htime]
          cases hst : r.start_time with
          | none => rw [hst] at hts; simp at hts
          | some t => exact ⟨t, rfl⟩
        rw [ht]
        rcases hper r hr e hpe with hg0 | ⟨x', hx', t', tx', ht', htx', hle⟩
        · obtain ⟨m0, hm0, htm0⟩ := guardSkip_true_elim _ e.time t ht hg0
          obtain ⟨x0, hx0, hx0t⟩ := latest_attained db m0 hm0
          obtain ⟨y, hy, hyor, hyk⟩ := store_cover accF db x0 hx0
          rcases hyor with heq | hyacc
          · have hyt : y.time = Option.some m0 := by rw [heq]; exact hx0t
            obtain ⟨m1, hm1, hm1ge⟩ :=
              mem_le_latest (store_evaluations db accF) y m0 hy hyt
            rw [hm1]
            exact guardSkip_true_intro m1 t (le_trans htm0 hm1ge)
          · obtain ⟨ty, hty, hgt⟩ := hgoodF y hyacc
            obtain ⟨m1, hm1, hm1ge⟩ :=
              mem_le_latest (store_evaluations db accF) y ty hy hty
            rw [hm1]
            exact guardSkip_true_intro m1 t
              (le_trans htm0 (le_trans (le_of_lt (hgt m0 hm0)) hm1ge))
        · have ht'e : t' = t := by
            rw [ht] at ht'
            injection ht' with hh
            exact hh.symm
          have hx'S1 := mem_store_of_mem_acc accF db huF x' hx'
          obtain ⟨m1, hm1, hm1ge⟩ :=
            mem_le_latest (store_evaluations db accF) x' tx' hx'S1 htx'
          rw [hm1]
          exact guardSkip_true_intro m1 t (le_trans (ht'e ▸ hle) hm1ge)
      have hall : ∀ r ∈ runs, parseRun r = Except.ok Option.none ∨
          ∃ e, parseRun r = Except.ok (Option.some e) ∧
            guardSkip (get_latest_timestamp (store_evaluations db accF)) e.time =
              true := by
        intro r hr
        obtain ⟨o, ho⟩ :=
          processList_parse_ok (get_latest_timestamp db) runs [] accF hpl r hr
        cases o with
        | none => exact Or.inl ho
        | some e => exact Or.inr ⟨e, ho, hskip r hr e ho⟩
      have hpl2 := processList_all_skip
        (get_latest_timestamp (store_evaluations db accF)) runs hall
      unfold fetch_and_store_latest_data
      rw [hpl2]
      rfl

/-- C9: witness — the amended theorem at a concrete all-timestamped batch
over a concrete non-empty store. -/
theorem C9_witness :
    fetch_and_store_latest_data
      (fetch_and_store_latest_data [mkEntry 9 (Option.some 4) "q"]
        [mkRun 1 (Option.some 1) "a", mkRun 2 (Option.some 7) "b"]).2
      [mkRun 1 (Option.some 1) "a", mkRun 2 (Option.some 7) "b"] =
    (0, (fetch_and_store_latest_data [mkEntry 9 (Option.some 4) "q"]
        [mkRun 1 (Option.some 1) "a", mkRun 2 (Option.some 7) "b"]).2) := by
  exact C9_amended_theorem [mkEntry 9 (Option.some 4) "q"]
    [mkRun 1 (Option.some 1) "a", mkRun 2 (Option.some 7) "b"] (by decide)

/-- C7: witness for the amended theorem at concrete inputs. -/
theorem C7_witness :
    extract_ticket_id (PyV.dict [("ticket_id", PyV.int 3)]) (PyV.dict []) =
      Except.ok (PyV.int 3) ∧
    extract_ticket_id (PyV.dict [("x", PyV.dict [("ticket_id", PyV.int 8)])])
      (PyV.dict []) = Except.ok (PyV.int 8) := by
  have h1 := C7_amended_theorem.1 [("ticket_id", PyV.int 3)] (PyV.dict []) (by decide)
  have h2 := C7_amended_theorem.2.1 [("x", PyV.dict [("ticket_id", PyV.int 8)])]
    [("ticket_id", PyV.int 8)] (PyV.dict []) (by decide) (by decide)
  exact ⟨h1, h2⟩

end TicketPipeline
